import Mathlib

/-!
Verification development for the message assembler / streaming encoder of
`go-simple-mail` (`message.go`).  The Go code is shallowly embedded: byte
streams are `List Char` (every byte produced by the code is ASCII), the
`bytes.Buffer` is a list read from the front and appended at the back,
machine integers are `Nat` (all quantities involved are non-negative and far
from any overflow boundary), and fallible operations return an `Option` error
code.  A Go `panic` (out-of-range slice index) is modelled by the `panicked`
constructor of `Outcome`.

The repository ships only `message.go`; the `Email` description type, its
`has*Part` predicates and the textual names of the encoding modes live in a
file that is not part of the sources.  Those few definitions are modelled
from the specification and are marked `Modelled from the spec:` in their
doc comments.  Everything else is translated directly from `message.go`.

Two sources of nondeterminism in the Go code are made explicit parameters:
the formatted current time (`time.Now().Format(...)`, parameter `now`) and
the randomly generated multipart boundary tokens (a deterministic token
sequence derived from a counter).  Go map iteration order is unspecified;
the model fixes insertion order for header serialization.
-/

/-- Error values a Go function of the embedded code can return:
`io.EOF`, `errors.New("buffer should be greater than 0")` and
`errors.New("index out of range")`. -/
inductive GoErr
  | eof
  | bufferZero
  | indexOutOfRange
deriving DecidableEq, Repr

/-- Outcome of running a piece of Go code that may panic (an out-of-range
slice index aborts the program instead of returning). -/
inductive Outcome (α : Type)
  | ok (val : α)
  | panicked
deriving DecidableEq, Repr

/-- An error is fatal for the `Read` loop when it is non-nil and not `io.EOF`. -/
def fatalErr (e : Option GoErr) : Bool :=
  e ≠ none && e ≠ some GoErr.eof

/-- Content-transfer-encoding modes (`EncodingNone`, `EncodingQuotedPrintable`,
`EncodingBase64`). -/
inductive Encoding
  | encodingNone
  | encodingQuotedPrintable
  | encodingBase64
deriving DecidableEq, Repr

/-- Modelled from the spec: the textual name of each encoding mode used in
`Content-Transfer-Encoding` headers.  The `encoding.string()` method lives in
a source file that is not part of the repository snapshot; the glossary of
the specification lists the three names none, quoted-printable and base64. -/
def encodingString : Encoding → String
  | .encodingNone => "none"
  | .encodingQuotedPrintable => "quoted-printable"
  | .encodingBase64 => "base64"

/-! ## base64 with line wrapping (`base64LineWrap`, `base64Encode`) -/

/-- Line-length cap of the wrapping writer (`const maxLineChars = 400`). -/
def maxLineChars : Nat := 400

/-- Iterations of the `for len(p)+e.numLineChars > maxLineChars` loop of
`base64LineWrap.Write`, with an explicit iteration bound so that the
definition is structurally recursive (the loop runs at most
`p.length + c` times; `base64LineWrapWriteGo_fuel_irrel` shows any
sufficient bound computes the same value). -/
def base64LineWrapWriteGo : Nat → Nat → List Char → List Char × Nat
  | 0, c, p => (p, c + p.length)
  | fuel + 1, c, p =>
    if p.length + c > maxLineChars then
      let numCharsToWrite := maxLineChars - c
      let rest := base64LineWrapWriteGo fuel 0 (p.drop numCharsToWrite)
      (p.take numCharsToWrite ++ '\r' :: '\n' :: rest.1, rest.2)
    else
      (p, c + p.length)

/-- One `base64LineWrap.Write` call: given the current line-character
counter `c` and the chunk `p` of encoded characters, produce the characters
actually written downstream (with a CRLF inserted whenever the running line
reaches `maxLineChars`) and the new counter. -/
def base64LineWrapWrite (c : Nat) (p : List Char) : List Char × Nat :=
  base64LineWrapWriteGo (p.length + c) c p

/-- The iteration bound is irrelevant as long as it is sufficient. -/
theorem base64LineWrapWriteGo_fuel_irrel :
    ∀ (m f1 f2 c : Nat) (p : List Char), p.length + c ≤ m →
      p.length + c ≤ f1 → p.length + c ≤ f2 →
      base64LineWrapWriteGo f1 c p = base64LineWrapWriteGo f2 c p := by
  intro m
  induction m using Nat.strong_induction_on with
  | _ m ih =>
    intro f1 f2 c p hm h1 h2
    by_cases hgt : p.length + c > maxLineChars
    · obtain ⟨g1, hg1⟩ : ∃ g1, f1 = g1 + 1 := ⟨f1 - 1, by simp only [maxLineChars] at hgt; omega⟩
      obtain ⟨g2, hg2⟩ : ∃ g2, f2 = g2 + 1 := ⟨f2 - 1, by simp only [maxLineChars] at hgt; omega⟩
      subst hg1
      subst hg2
      · simp only [base64LineWrapWriteGo, if_pos hgt]
        have hdlen : (p.drop (maxLineChars - c)).length = p.length - (maxLineChars - c) :=
          List.length_drop ..
        have hrec := ih (p.drop (maxLineChars - c)).length
          (by simp only [hdlen, maxLineChars] at *; omega)
          g1 g2 0 (p.drop (maxLineChars - c)) (by omega)
          (by simp only [hdlen, maxLineChars] at *; omega)
          (by simp only [hdlen, maxLineChars] at *; omega)
        rw [hrec]
    · match f1, f2 with
      | 0, 0 => rfl
      | 0, g2 + 1 => simp only [base64LineWrapWriteGo, if_neg hgt]
      | g1 + 1, 0 => simp only [base64LineWrapWriteGo, if_neg hgt]
      | g1 + 1, g2 + 1 => simp only [base64LineWrapWriteGo, if_neg hgt]

/-- Unfolding equation of `base64LineWrapWrite`: direct translation of the
`for len(p)+e.numLineChars > maxLineChars` loop body of the Go writer. -/
theorem base64LineWrapWrite_eq (c : Nat) (p : List Char) :
    base64LineWrapWrite c p =
      if p.length + c > maxLineChars then
        (p.take (maxLineChars - c) ++ '\r' :: '\n' ::
            (base64LineWrapWrite 0 (p.drop (maxLineChars - c))).1,
         (base64LineWrapWrite 0 (p.drop (maxLineChars - c))).2)
      else
        (p, c + p.length) := by
  by_cases hgt : p.length + c > maxLineChars
  · rw [if_pos hgt]
    show base64LineWrapWriteGo (p.length + c) c p = _
    obtain ⟨m', hm⟩ : ∃ m', p.length + c = m' + 1 := ⟨p.length + c - 1, by omega⟩
    rw [hm]
    simp only [base64LineWrapWriteGo, if_pos hgt]
    have hdlen : (p.drop (maxLineChars - c)).length = p.length - (maxLineChars - c) :=
      List.length_drop ..
    have hrec := base64LineWrapWriteGo_fuel_irrel
      (p.drop (maxLineChars - c)).length m'
      ((p.drop (maxLineChars - c)).length + 0) 0 (p.drop (maxLineChars - c))
      (by omega)
      (by simp only [hdlen, maxLineChars] at *; omega)
      (by omega)
    rw [hrec]
    rfl
  · rw [if_neg hgt]
    show base64LineWrapWriteGo (p.length + c) c p = _
    cases hpc : p.length + c with
    | zero => rfl
    | succ m' => simp only [base64LineWrapWriteGo, if_neg hgt]

/-- Standard base64 alphabet. -/
def b64Alphabet : List Char :=
  [ 'A', 'B', 'C', 'D', 'E', 'F', 'G', 'H', 'I', 'J', 'K', 'L', 'M',
    'N', 'O', 'P', 'Q', 'R', 'S', 'T', 'U', 'V', 'W', 'X', 'Y', 'Z',
    'a', 'b', 'c', 'd', 'e', 'f', 'g', 'h', 'i', 'j', 'k', 'l', 'm',
    'n', 'o', 'p', 'q', 'r', 's', 't', 'u', 'v', 'w', 'x', 'y', 'z',
    '0', '1', '2', '3', '4', '5', '6', '7', '8', '9', '+', '/' ]

/-- Character of the base64 alphabet at index `i` (i < 64). -/
def b64Char (i : Nat) : Char := b64Alphabet.getD i 'A'

/-- Base64 encoding of one complete 3-byte group into 4 characters. -/
def encGroup (a b c : Char) : List Char :=
  let x := a.toNat * 65536 + b.toNat * 256 + c.toNat
  [ b64Char (x / 262144 % 64), b64Char (x / 4096 % 64),
    b64Char (x / 64 % 64), b64Char (x % 64) ]

/-- Base64-encode all complete 3-byte groups of the input, returning the
encoded characters and the 0–2 leftover bytes (the carry the stdlib encoder
buffers between `Write` calls). -/
def encStream : List Char → List Char × List Char
  | a :: b :: c :: rest =>
    let r := encStream rest
    (encGroup a b c ++ r.1, r.2)
  | rest => ([], rest)

/-- Base64 encoding of a final partial group with `=` padding, as written by
the stdlib encoder's `Close`. -/
def padEncode : List Char → List Char
  | [a] =>
    let x := a.toNat * 65536
    [b64Char (x / 262144 % 64), b64Char (x / 4096 % 64), '=', '=']
  | [a, b] =>
    let x := a.toNat * 65536 + b.toNat * 256
    [b64Char (x / 262144 % 64), b64Char (x / 4096 % 64), b64Char (x / 64 % 64), '=']
  | _ => []

/-- One-shot `base64Encode`: encode the whole text and close the encoder,
feeding a fresh `base64LineWrap` (line counter 0).  The stdlib encoder writes
the complete groups first and the padded final group on `Close`, so the wrap
counter threads between the two writes. -/
def base64Encode (text : List Char) : List Char :=
  let s := encStream text
  let w1 := base64LineWrapWrite 0 s.1
  let w2 := base64LineWrapWrite w1.2 (padEncode s.2)
  w1.1 ++ w2.1

/-- Modelled from the spec: the quoted-printable transform ("non-printable /
8-bit bytes escaped as `=XX`").  It is the Go stdlib
`mime/quotedprintable` writer, external to the repository; no claim below
exercises it (every theorem uses `EncodingNone` or `EncodingBase64`), it is
present only so that `writeBody` is total over all three modes. -/
def qpEncode (text : List Char) : List Char :=
  text.flatMap fun ch =>
    if ch = '=' || ch.toNat < 32 || ch.toNat > 126 then
      let hex := fun (n : Nat) => b64Alphabet.getD (if n < 10 then 52 + n else n - 10) '0'
      ['=', hex (ch.toNat / 16), hex (ch.toNat % 16)]
    else [ch]

/-! ### Chunking invariance of the wrapping writer -/

theorem base64LineWrapWrite_append (c : Nat) (p q : List Char) :
    base64LineWrapWrite c (p ++ q) =
      ((base64LineWrapWrite c p).1 ++ (base64LineWrapWrite (base64LineWrapWrite c p).2 q).1,
       (base64LineWrapWrite (base64LineWrapWrite c p).2 q).2) := by
  suffices h : ∀ (m c : Nat) (p q : List Char), p.length + c ≤ m →
      base64LineWrapWrite c (p ++ q) =
        ((base64LineWrapWrite c p).1 ++ (base64LineWrapWrite (base64LineWrapWrite c p).2 q).1,
         (base64LineWrapWrite (base64LineWrapWrite c p).2 q).2) by
    exact h (p.length + c) c p q le_rfl
  intro m
  induction m using Nat.strong_induction_on with
  | _ m ih =>
    intro c p q hm
    by_cases hp : p.length + c > maxLineChars
    · -- the chunk `p` alone already overflows the current line
      have hpq : (p ++ q).length + c > maxLineChars := by
        simp only [List.length_append]; omega
      rw [base64LineWrapWrite_eq, if_pos hpq]
      conv_rhs => rw [base64LineWrapWrite_eq, if_pos hp]
      have hk : maxLineChars - c ≤ p.length := by omega
      have htake : (p ++ q).take (maxLineChars - c) = p.take (maxLineChars - c) :=
        List.take_append_of_le_length hk
      have hdrop : (p ++ q).drop (maxLineChars - c) = p.drop (maxLineChars - c) ++ q :=
        List.drop_append_of_le_length hk
      have hlt : (p.drop (maxLineChars - c)).length + 0 < m := by
        simp only [List.length_drop, maxLineChars] at *
        omega
      have hrec := ih _ hlt 0 (p.drop (maxLineChars - c)) q le_rfl
      simp only [htake, hdrop, hrec, List.append_assoc, List.cons_append]
    · -- `p` fits on the current line entirely
      have hwp : base64LineWrapWrite c p = (p, c + p.length) := by
        rw [base64LineWrapWrite_eq, if_neg hp]
      rw [hwp]
      by_cases hq : (p ++ q).length + c > maxLineChars
      · have hq' : q.length + (c + p.length) > maxLineChars := by
          simp only [List.length_append] at hq; omega
        rw [base64LineWrapWrite_eq, if_pos hq]
        conv_rhs => rw [base64LineWrapWrite_eq, if_pos hq']
        have hle : p.length ≤ maxLineChars - c := by omega
        have htake : (p ++ q).take (maxLineChars - c)
            = p ++ q.take (maxLineChars - c - p.length) := by
          rw [List.take_append_eq_append_take, List.take_of_length_le hle]
        have hdrop : (p ++ q).drop (maxLineChars - c)
            = q.drop (maxLineChars - c - p.length) := by
          rw [List.drop_append_eq_append_drop, List.drop_of_length_le hle]
          simp only [List.nil_append]
        have harith : maxLineChars - c - p.length = maxLineChars - (c + p.length) := by omega
        simp only [htake, hdrop, harith, List.append_assoc]
      · have hq' : ¬ (q.length + (c + p.length) > maxLineChars) := by
          simp only [List.length_append] at hq; omega
        rw [base64LineWrapWrite_eq, if_neg hq]
        conv_rhs => rw [base64LineWrapWrite_eq, if_neg hq']
        simp only [List.length_append, Nat.add_assoc]

/-- Splitting lemma for the 3-byte grouping of the stdlib base64 encoder:
encoding `a ++ b` encodes the complete groups of `a`, then the groups of the
leftover of `a` followed by `b`. -/
theorem encStream_append (a b : List Char) :
    encStream (a ++ b) =
      ((encStream a).1 ++ (encStream ((encStream a).2 ++ b)).1,
       (encStream ((encStream a).2 ++ b)).2) := by
  induction a using encStream.induct with
  | case1 x y z rest ih =>
    simp only [List.cons_append, encStream, List.append_eq, ih, List.append_assoc]
  | case2 rest hr =>
    have h2 : encStream rest = ([], rest) := by
      match rest, hr with
      | [], _ => rfl
      | [x], _ => rfl
      | [x, y], _ => rfl
      | x :: y :: z :: t, hr => exact absurd rfl (hr x y z t)
    rw [h2]
    simp

/-- Persistent state of the message's streaming base64 encoder chain
(`message.encoder` feeding `base64LineWrap` feeding `message.encoderBuff`):
the 0–2 buffered input bytes of the encoder and the wrapper's line counter. -/
structure B64Wrap where
  buf : List Char
  col : Nat
deriving DecidableEq, Repr

/-- One `Write` call on the streaming base64 encoder chain: the buffered
carry plus the new input is split into complete 3-byte groups, their
encoding is passed through the line wrapper, and the remainder is carried
over.  Returns the characters appended to `encoderBuff` and the new state. -/
def b64WrapWrite (st : B64Wrap) (p : List Char) : List Char × B64Wrap :=
  let s := encStream (st.buf ++ p)
  let w := base64LineWrapWrite st.col s.1
  (w.1, ⟨s.2, w.2⟩)

/-- `Close` on the streaming base64 encoder chain: the remaining 0–2 bytes
are encoded as a padded final group through the line wrapper. -/
def b64WrapClose (st : B64Wrap) : List Char × B64Wrap :=
  let w := base64LineWrapWrite st.col (padEncode st.buf)
  (w.1, ⟨[], w.2⟩)

/-- Feeding the streaming encoder chain a list of chunks in successive
`Write` calls, accumulating the produced characters. -/
def b64WrapWriteAll (st : B64Wrap) : List (List Char) → List Char × B64Wrap
  | [] => ([], st)
  | p :: rest =>
    let w := b64WrapWrite st p
    let r := b64WrapWriteAll w.2 rest
    (w.1 ++ r.1, r.2)

/-- Two consecutive `Write` calls produce exactly the output and state of one
`Write` of the concatenation. -/
theorem b64WrapWrite_append (st : B64Wrap) (p q : List Char) :
    b64WrapWrite st (p ++ q) =
      ((b64WrapWrite st p).1 ++ (b64WrapWrite (b64WrapWrite st p).2 q).1,
       (b64WrapWrite (b64WrapWrite st p).2 q).2) := by
  simp only [b64WrapWrite, ← List.append_assoc, encStream_append (st.buf ++ p) q,
    base64LineWrapWrite_append]

/-- The leftover carried by the base64 grouping is always at most 2 bytes. -/
theorem encStream_snd_length (l : List Char) : (encStream l).2.length ≤ 2 := by
  induction l using encStream.induct with
  | case1 x y z rest ih => simpa [encStream] using ih
  | case2 rest hr =>
    match rest, hr with
    | [], _ => simp [encStream]
    | [x], _ => simp [encStream]
    | [x, y], _ => simp [encStream]
    | x :: y :: z :: t, hr => exact absurd rfl (hr x y z t)

/-- The wrapper's line counter never exceeds the line cap. -/
theorem base64LineWrapWrite_col_le (c : Nat) (p : List Char) :
    (base64LineWrapWrite c p).2 ≤ maxLineChars := by
  suffices h : ∀ (m c : Nat) (p : List Char), p.length + c ≤ m →
      (base64LineWrapWrite c p).2 ≤ maxLineChars by
    exact h (p.length + c) c p le_rfl
  intro m
  induction m using Nat.strong_induction_on with
  | _ m ih =>
    intro c p hm
    rw [base64LineWrapWrite_eq]
    by_cases hgt : p.length + c > maxLineChars
    · rw [if_pos hgt]
      exact ih ((p.drop (maxLineChars - c)).length + 0)
        (by simp only [List.length_drop, maxLineChars] at *; omega)
        0 (p.drop (maxLineChars - c)) le_rfl
    · rw [if_neg hgt]
      simp only [maxLineChars] at *
      omega

/-- Writing an empty chunk through the encoder chain is a no-op in any state
the chain can actually reach (carry of at most 2 bytes, line counter at most
the cap). -/
theorem b64WrapWrite_nil (st : B64Wrap) (h1 : st.buf.length ≤ 2)
    (h2 : st.col ≤ maxLineChars) : b64WrapWrite st [] = ([], st) := by
  have henc : encStream st.buf = ([], st.buf) := by
    match hb : st.buf, h1 with
    | [], _ => rfl
    | [x], _ => rfl
    | [x, y], _ => rfl
  have hwrap : base64LineWrapWrite st.col [] = ([], st.col) := by
    rw [base64LineWrapWrite_eq, if_neg (by simp; omega)]
    simp
  simp [b64WrapWrite, henc, hwrap]

/-- C5: for every byte input and every partition of it into consecutive
chunks fed to successive `Write` calls, the cumulative output of the
line-wrapped base64 encoder (`base64LineWrap` with its persistent column
counter, together with the stdlib encoder's 3-byte carry) is byte-identical —
and leaves the encoder in the identical state — to encoding the concatenated
input in a single call.  The CRLF insertion after every `maxLineChars = 400`
output characters is part of `base64LineWrapWrite`.  The hypotheses are the
state invariant of the chain: a carry of at most two bytes and a line counter
of at most the cap, which hold of the initial state and are preserved by
every write. -/
theorem c5_base64_linewrap_chunking (st : B64Wrap) (chunks : List (List Char))
    (h1 : st.buf.length ≤ 2) (h2 : st.col ≤ maxLineChars) :
    b64WrapWriteAll st chunks = b64WrapWrite st chunks.flatten := by
  induction chunks generalizing st with
  | nil => simp [b64WrapWriteAll, b64WrapWrite_nil st h1 h2]
  | cons c rest ih =>
    have hsplit := b64WrapWrite_append st c rest.flatten
    have hbuf : (b64WrapWrite st c).2.buf.length ≤ 2 := encStream_snd_length _
    have hcol : (b64WrapWrite st c).2.col ≤ maxLineChars := base64LineWrapWrite_col_le _ _
    simp only [List.flatten_cons, hsplit, b64WrapWriteAll, ih _ hbuf hcol]

/-- Witness for C5 at a concrete state and chunking. -/
theorem c5_base64_linewrap_chunking_witness :
    (B64Wrap.mk ['x'] 3).buf.length ≤ 2 ∧ (B64Wrap.mk ['x'] 3).col ≤ maxLineChars ∧
      b64WrapWriteAll (B64Wrap.mk ['x'] 3) [['a', 'b'], [], ['c', 'd', 'e']] =
        b64WrapWrite (B64Wrap.mk ['x'] 3) [['a', 'b'], [], ['c', 'd', 'e']].flatten :=
  ⟨by decide, by decide,
    c5_base64_linewrap_chunking (B64Wrap.mk ['x'] 3) [['a', 'b'], [], ['c', 'd', 'e']]
      (by decide) (by decide)⟩

/-! ## CID table and rewriter (`getCID`, `replaceCIDs`) -/

/-- The message's CID table `cids map[string]string`, as an association list
in insertion order (the code only ever inserts absent keys, so the list has
no duplicate keys and its length is the map's size). -/
abbrev CidTable : Type := List (String × String)

/-- Lookup in the CID table (`cid, exists := msg.cids[text]`). -/
def cidLookup : CidTable → String → Option String
  | [], _ => none
  | (k, v) :: rest, text => if k = text then some v else cidLookup rest text

/-- `getCID`: return the stored generated ID for `text`, or generate
`<formatted now>.<table size + 1>@mail.0`, store it and return it.  The
formatted current time is the explicit parameter `now`. -/
def getCID (cids : CidTable) (now text : String) : String × CidTable :=
  match cidLookup cids text with
  | some cid => (cid, cids)
  | none =>
    let cid := now ++ "." ++ toString (cids.length + 1) ++ "@mail.0"
    (cid, cids ++ [(text, cid)])

/-- Try to match the regular expression `(src|href)="cid:(.*?)"` at the head
of the text: after the literal `src="cid:` or `href="cid:`, the lazy `(.*?)"`
captures the shortest run of non-newline characters up to a closing quote.
Returns the captured name and the text after the match. -/
def cidMatchAt (l : List Char) : Option (List Char × List Char) :=
  let lit : Option (List Char) :=
    if ("src=\"cid:".data).isPrefixOf l then some (l.drop 9)
    else if ("href=\"cid:".data).isPrefixOf l then some (l.drop 10)
    else none
  match lit with
  | none => none
  | some rest => captureName rest []
where
  /-- Scan for the closing quote; `.` does not match a newline, so a newline
  before the quote (or running out of input) means no match. -/
  captureName : List Char → List Char → Option (List Char × List Char)
    | [], _ => none
    | c :: cs, acc =>
      if c = '"' then some (acc.reverse, cs)
      else if c = '\n' then none
      else captureName cs (c :: acc)

/-- The remainder returned by a successful match is strictly shorter. -/
theorem cidMatchAt_rest_lt (l nm rest : List Char)
    (h : cidMatchAt l = some (nm, rest)) : rest.length < l.length := by
  have hcap : ∀ (s acc nm rest : List Char),
      cidMatchAt.captureName s acc = some (nm, rest) → rest.length < s.length := by
    intro s
    induction s with
    | nil => intro acc nm rest h; simp [cidMatchAt.captureName] at h
    | cons c cs ih =>
      intro acc nm rest h
      by_cases hc : c = '"'
      · simp [cidMatchAt.captureName, hc] at h
        simp [← h.2]
      · by_cases hn : c = '\n'
        · simp [cidMatchAt.captureName, hc, hn] at h
        · simp only [cidMatchAt.captureName, if_neg hc, if_neg hn] at h
          have := ih _ _ _ h
          simp only [List.length_cons]
          omega
  unfold cidMatchAt at h
  by_cases h9 : ("src=\"cid:".data).isPrefixOf l
  · simp only [h9, if_pos] at h
    have := hcap _ _ _ _ h
    have h9l : 9 ≤ l.length := by
      have := (List.isPrefixOf_iff_prefix.mp h9).length_le
      simpa using this
    simp only [List.length_drop] at this
    omega
  · by_cases h10 : ("href=\"cid:".data).isPrefixOf l
    · simp only [h9, h10, if_neg, if_pos, Bool.false_eq_true, ↓reduceIte] at h
      have := hcap _ _ _ _ h
      have h10l : 10 ≤ l.length := by
        have := (List.isPrefixOf_iff_prefix.mp h10).length_le
        simpa using this
      simp only [List.length_drop] at this
      omega
    · simp [h9, h10] at h

/-- Scanning loop of `FindAllStringSubmatch` with an explicit step bound so
that it is structurally recursive; each step either consumes a whole match
(`cidMatchAt_rest_lt`) or advances one character, so `l.length` steps always
suffice. -/
def findCIDMatchesGo : Nat → List Char → List String
  | 0, _ => []
  | _, [] => []
  | fuel + 1, c :: cs =>
    match cidMatchAt (c :: cs) with
    | some (nm, rest) => String.mk nm :: findCIDMatchesGo fuel rest
    | none => findCIDMatchesGo fuel cs

/-- Model of `regexp.FindAllStringSubmatch(text, -1)` for the pattern
`(src|href)="cid:(.*?)"`: the captured names of all successive
non-overlapping leftmost matches, scanning resumes after each match. -/
def findCIDMatches (l : List Char) : List String :=
  findCIDMatchesGo l.length l

/-- Scanning loop of `strings.Replace` with an explicit step bound so that
it is structurally recursive; each step consumes at least one character, so
`t.length` steps always suffice. -/
def stringsReplaceGo (old new : List Char) : Nat → List Char → List Char
  | 0, t => t
  | _, [] => []
  | fuel + 1, c :: cs =>
    if old ≠ [] ∧ old.isPrefixOf (c :: cs) then
      new ++ stringsReplaceGo old new fuel ((c :: cs).drop old.length)
    else
      c :: stringsReplaceGo old new fuel cs

/-- Model of `strings.Replace(t, old, new, -1)`: replace every
non-overlapping occurrence of `old`, scanning left to right.  (`old` is
always non-empty where the code calls it: `"cid:" + name`.) -/
def stringsReplace (old new : List Char) (t : List Char) : List Char :=
  stringsReplaceGo old new t.length t

/-- `replaceCIDs`: find all `(src|href)="cid:<name>"` captures in the
original text, then for each captured name in order get (or generate) its
CID and replace every occurrence of `cid:<name>` in the evolving text.
Returns the rewritten text and the updated CID table. -/
def replaceCIDs (cids : CidTable) (now : String) (text : List Char) :
    List Char × CidTable :=
  (findCIDMatches text).foldl
    (fun acc nm =>
      let g := getCID acc.2 now nm
      (stringsReplace ("cid:".data ++ nm.data) ("cid:".data ++ g.1.data) acc.1, g.2))
    (text, cids)

/-- On a text in which the pattern finds no match, `replaceCIDs` is the
identity on both the text and the table. -/
theorem replaceCIDs_no_match (cids : CidTable) (now : String) (text : List Char)
    (h : findCIDMatches text = []) : replaceCIDs cids now text = (text, cids) := by
  simp [replaceCIDs, h]

/-- C3 counterexample: applying `replaceCIDs` to the output of `replaceCIDs`
is not a no-op.  On `src="cid:a"` (with formatted time `N`, empty table) the
first pass produces `src="cid:N.1@mail.0"`; the generated ID is matched again
by the `(src|href)="cid:..."` pattern, so the second pass finds a match and
substitutes a fresh ID `N.2@mail.0`, yielding a different result. -/
theorem c3_replaceCIDs_not_idempotent :
    (replaceCIDs (replaceCIDs [] "N" ("src=\"cid:a\"".data)).2 "N"
        (replaceCIDs [] "N" ("src=\"cid:a\"".data)).1).1
      ≠ (replaceCIDs [] "N" ("src=\"cid:a\"".data)).1
    ∧ findCIDMatches (replaceCIDs [] "N" ("src=\"cid:a\"".data)).1 ≠ [] := by
  constructor
  · decide
  · decide

/-- C3 amended: `replaceCIDs` is the identity — and therefore idempotent —
precisely on texts in which the `(src|href)="cid:..."` pattern finds no
match; on texts with a match, generated IDs are matched again by the pattern
and a second application performs further substitutions
(`c3_replaceCIDs_not_idempotent`). -/
theorem c3_replaceCIDs_identity_no_match (cids : CidTable) (now now2 : String)
    (text : List Char) (h : findCIDMatches text = []) :
    replaceCIDs cids now text = (text, cids)
    ∧ replaceCIDs (replaceCIDs cids now text).2 now2
        (replaceCIDs cids now text).1 = replaceCIDs cids now text := by
  refine ⟨replaceCIDs_no_match cids now text h, ?_⟩
  rw [replaceCIDs_no_match cids now text h]
  exact replaceCIDs_no_match cids now2 text h

/-- Witness for the amended C3 at a concrete match-free text. -/
theorem c3_replaceCIDs_identity_no_match_witness :
    findCIDMatches ("<p>hello</p>".data) = []
    ∧ replaceCIDs [] "N" ("<p>hello</p>".data) = ("<p>hello</p>".data, [])
    ∧ replaceCIDs (replaceCIDs [] "N" ("<p>hello</p>".data)).2 "M"
        (replaceCIDs [] "N" ("<p>hello</p>".data)).1
        = replaceCIDs [] "N" ("<p>hello</p>".data) :=
  ⟨by decide,
    (c3_replaceCIDs_identity_no_match [] "N" "M" ("<p>hello</p>".data) (by decide)).1,
    (c3_replaceCIDs_identity_no_match [] "N" "M" ("<p>hello</p>".data) (by decide)).2⟩

/-! ## Headers, header codec, multipart writer -/

/-- A `textproto.MIMEHeader` (map key → list of values).  Go maps are
unordered; the model keeps insertion order, which fixes one serialization
order for the `range` loops below. -/
abbrev MIMEHeader : Type := List (String × List String)

/-- `header.Set(k, v)`: replace the values of `k` by the one-element list
`[v]` (keys used by the code are already in canonical form). -/
def mimeSet (h : MIMEHeader) (k v : String) : MIMEHeader :=
  match h with
  | [] => [(k, [v])]
  | (k', vs) :: rest => if k' = k then (k, [v]) :: rest else (k', vs) :: mimeSet rest k v

/-- `header.Get(k)`: first value of `k`, or `""` when absent. -/
def mimeGet (h : MIMEHeader) (k : String) : String :=
  match h with
  | [] => ""
  | (k', vs) :: rest => if k' = k then vs.headD "" else mimeGet rest k

/-- `escapeQuotes`: `strings.NewReplacer("\\", "\\\\", "\"", "\\\"")`. -/
def escapeQuotes (s : String) : String :=
  String.mk (s.data.flatMap fun c =>
    if c = '\\' then ['\\', '\\'] else if c = '"' then ['\\', '"'] else [c])

/-- Modelled from the spec: the external RFC 2047 header codec
(`encodeHeader` calls `newEncoder(buf, charset, usedChars, limit)` from a
source file that is not part of the repository snapshot).  The spec consumes
it as a black-box `text → ASCII` transform; on the plain-ASCII,
non-foldable values exercised here it returns the text unchanged, so the
model is the identity on the text. -/
def encodeHeader (text : String) (_charset : String) (_usedChars : Nat)
    (_limit : Bool) : String :=
  text

/-- `getHeaders`: serialize a header map, one `Key: value, value\r\n` line
per key (values joined by `", "`), in the model's fixed insertion order. -/
def getHeaders (header : MIMEHeader) (charset : String) (limit : Bool) : List Char :=
  header.flatMap fun kv =>
    kv.1.data ++ ": ".data
      ++ (encodeHeader (String.intercalate ", " kv.2) charset (kv.1.length + 2) limit).data
      ++ "\r\n".data

/-- State of one `mime/multipart.Writer`: its boundary token and whether a
part has been created yet (`lastpart`), which decides the leading boundary
delimiter of the next part. -/
structure MpWriter where
  boundary : String
  lastpart : Bool
deriving DecidableEq, Repr

/-- Lexicographic byte-wise comparison of strings (the order of
`sort.Strings`), written out structurally over the character lists. -/
def charListLe : List Char → List Char → Bool
  | [], _ => true
  | _ :: _, [] => false
  | a :: as, b :: bs =>
    if a.toNat < b.toNat then true
    else if b.toNat < a.toNat then false
    else charListLe as bs

/-- Insertion of a string into a sorted list, for `sortStrings`. -/
def insertSorted (x : String) : List String → List String
  | [] => [x]
  | y :: ys => if charListLe x.data y.data then x :: y :: ys else y :: insertSorted x ys

/-- Model of `sort.Strings`, used by `multipart.Writer.CreatePart` to order
the header keys deterministically. -/
def sortStrings : List String → List String
  | [] => []
  | x :: xs => insertSorted x (sortStrings xs)

/-- Bytes emitted by `multipart.Writer.CreatePart`: the boundary delimiter
(with a leading CRLF from the second part on), the header lines sorted by
key as the stdlib does, and a blank line. -/
def createPartBytes (w : MpWriter) (header : MIMEHeader) : List Char × MpWriter :=
  let delim :=
    if w.lastpart then "\r\n--".data ++ w.boundary.data ++ "\r\n".data
    else "--".data ++ w.boundary.data ++ "\r\n".data
  let sorted := sortStrings (header.map (·.1))
  let lines := sorted.flatMap fun k =>
    (headerValues header k).flatMap fun v => k.data ++ ": ".data ++ v.data ++ "\r\n".data
  (delim ++ lines ++ "\r\n".data, { w with lastpart := true })
where
  /-- Values stored under a key (`header[k]`). -/
  headerValues : MIMEHeader → String → List String
    | [], _ => []
    | (k', vs) :: rest, k => if k' = k then vs else headerValues rest k

/-- Bytes emitted by `multipart.Writer.Close`: the terminating boundary. -/
def closePartBytes (w : MpWriter) : List Char :=
  "\r\n--".data ++ w.boundary.data ++ "--\r\n".data

/-- The deterministic stand-in for the stdlib's randomly generated boundary
token: token number `i` of a message. -/
def boundaryToken (i : Nat) : String :=
  "b0undary" ++ toString i

/-! ## Files, parts, Email description -/

/-- A body part of the email description (content type and raw content). -/
structure part where
  contentType : String
  body : List Char
deriving DecidableEq, Repr

/-- A file reference: name, MIME type, declared size, and the remaining
unread bytes of its sequential byte source (`file.reader`, modelled with
`bytes.Reader` semantics). -/
structure file where
  filename : String
  mimeType : String
  size : Nat
  data : List Char
deriving DecidableEq, Repr

/-- `reader.Read(p)` with `len(p) = n` on a file's byte source
(`bytes.Reader` semantics: end-of-data reports `io.EOF`, a read of `n = 0`
with data remaining reports success with zero bytes). -/
def fileRead (f : file) (n : Nat) : List Char × Option GoErr × file :=
  if f.data = [] then ([], some GoErr.eof, f)
  else (f.data.take n, none, { f with data := f.data.drop n })

/-- Modelled from the spec: the email description (§3: ordered header
multimap, charset, encoding mode, ordered body parts, ordered attachment and
inline file references).  The `Email` type lives outside `message.go`. -/
structure Email where
  headers : MIMEHeader
  charset : String
  encoding : Encoding
  parts : List part
  attachments : List file
  inlines : List file
deriving DecidableEq, Repr

/-- Modelled from the spec: "Open, in order, the mixed context if
attachments exist" (§4.4). -/
def hasMixedPart (email : Email) : Bool := email.attachments.length > 0

/-- Modelled from the spec: the related context is opened "if inline files
or multiple alternative-capable bodies exist" (§4.4). -/
def hasRelatedPart (email : Email) : Bool :=
  email.inlines.length > 0 || email.parts.length > 1

/-- Modelled from the spec: "the alternative context if more than one text
body variant exists" (§4.4). -/
def hasAlternativePart (email : Email) : Bool := email.parts.length > 1

/-! ## The message -/

/-- Instrumentation record of the boundary manager: one event per
`openMultipart` and per `closeMultipart` that popped a context. -/
inductive MpEvent
  | openEv (boundary : String)
  | closeEv (boundary : String)
deriving DecidableEq, Repr

/-- The `message` struct.  `body` is the unread content of the
`bytes.Buffer`; `encoderBuff` the unread content of the encoder's output
buffer; `encoderCarry` and `wrapCol` are the persistent hidden state of
`message.encoder` (buffered input bytes of the stdlib base64 encoder and the
`base64LineWrap` column).  `now` is the formatted current time used whenever
the code calls `time.Now()`; `mpLog` and `boundarySeq` are instrumentation:
the boundary event log and the seed of the deterministic boundary tokens. -/
structure Message where
  bodySend : Bool
  fileHeaderSend : Bool
  body : List Char
  writers : List MpWriter
  encoderBuff : List Char
  encoderCarry : List Char
  wrapCol : Nat
  attachmentIndex : Nat
  inlineIndex : Nat
  attachments : List file
  inlines : List file
  parts : Nat
  cids : CidTable
  charset : String
  encoding : Encoding
  now : String
  mpLog : List MpEvent
  boundarySeq : Nat
deriving DecidableEq, Repr

/-- `writeBody`: encode per the given mode and append to the buffer. -/
def Message.writeBody (msg : Message) (body : List Char) (enc : Encoding) : Message :=
  match enc with
  | .encodingQuotedPrintable => { msg with body := msg.body ++ qpEncode body }
  | .encodingBase64 => { msg with body := msg.body ++ base64Encode body }
  | .encodingNone => { msg with body := msg.body ++ body }

/-- `msg.writers[msg.parts-1].CreatePart(header)`.  The `none` case is the
state in which Go would panic on the slice index; it never arises, because
`parts > 0` always goes with at least `parts` writers. -/
def Message.createPart (msg : Message) (header : MIMEHeader) : Message :=
  match msg.writers.get? (msg.parts - 1) with
  | none => msg
  | some w =>
    let r := createPartBytes w header
    { msg with body := msg.body ++ r.1, writers := msg.writers.set (msg.parts - 1) r.2 }

/-- `message.write`: with no open multipart context, serialize the header
into the buffer unencoded; otherwise create a part in the innermost context.
Then append the body, if any, encoded per `enc`. -/
def Message.write (msg : Message) (header : MIMEHeader) (body : List Char)
    (enc : Encoding) : Message :=
  let limit := if enc = .encodingNone then false else true
  let msg :=
    if msg.parts = 0 then
      msg.writeBody (getHeaders header msg.charset limit) .encodingNone
    else
      msg.createPart header
  if body.length ≠ 0 then msg.writeBody body enc else msg

/-- `openMultipart`: append a fresh writer, emit the
`Content-Type: multipart/<kind>; boundary=...` header (into the top-level
headers when no context is open, as a nested part otherwise), and push. -/
def Message.openMultipart (msg : Message) (multipartType : String) : Message :=
  let w : MpWriter := { boundary := boundaryToken msg.boundarySeq, lastpart := false }
  let writers := msg.writers ++ [w]
  let contentType := "multipart/" ++ multipartType ++ "; boundary="
      ++ ((writers.get? msg.parts).getD w).boundary
  let header := mimeSet [] "Content-Type" contentType
  let msg := { msg with
    writers := writers
    boundarySeq := msg.boundarySeq + 1
    mpLog := msg.mpLog ++ [MpEvent.openEv w.boundary] }
  let msg :=
    if msg.parts = 0 then msg.write header [] .encodingQuotedPrintable
    else msg.createPart header
  { msg with parts := msg.parts + 1 }

/-- `closeMultipart`: pop the innermost context and emit its terminating
boundary; a no-op on an empty stack. -/
def Message.closeMultipart (msg : Message) : Message :=
  if msg.parts > 0 then
    match msg.writers.get? (msg.parts - 1) with
    | none => { msg with parts := msg.parts - 1 }
    | some w =>
      { msg with
        body := msg.body ++ closePartBytes w
        parts := msg.parts - 1
        mpLog := msg.mpLog ++ [MpEvent.closeEv w.boundary] }
  else msg

/-- `addBody`: rewrite CIDs (on the message's own table and clock), then
emit a part with `Content-Type` (with charset) and
`Content-Transfer-Encoding` headers and the encoded body. -/
def Message.addBody (msg : Message) (contentType : String) (body : List Char) : Message :=
  let r := replaceCIDs msg.cids msg.now body
  let msg := { msg with cids := r.2 }
  let header := mimeSet
    (mimeSet [] "Content-Type" (contentType ++ "; charset=" ++ msg.charset))
    "Content-Transfer-Encoding" (encodingString msg.encoding)
  msg.write header r.1 msg.encoding

/-- Header block built by `AddFileHeaders` for the file `f` (the body of the
function after the bounds handling, factored out so the emitted headers can
be inspected).  The local `encoding` variable is hard-coded to
`EncodingBase64` and `limit` to `false` in the source (the conditional
branches are commented out); the inline variant also consults the CID table,
which it may extend.  The `println` in the source writes to standard output,
not to the message. -/
def Message.fileHeader (msg : Message) (f : file) (inline : Bool) :
    MIMEHeader × Message :=
  let h := mimeSet [] "Content-Type"
    (f.mimeType ++ "; name=\"" ++ encodeHeader (escapeQuotes f.filename) msg.charset 6 false ++ "\"")
  let h := mimeSet h "Content-Transfer-Encoding" (encodingString Encoding.encodingBase64)
  let h := if f.size > 0 then mimeSet h "Content-Length" (toString f.size) else h
  if inline then
    let g := getCID msg.cids msg.now f.filename
    let h := mimeSet h "Content-Disposition"
      ("inline; filename=\"" ++ encodeHeader (escapeQuotes f.filename) msg.charset 10 false ++ "\"")
    let h := mimeSet h "Content-ID" ("<" ++ g.1 ++ ">")
    (h, { msg with cids := g.2 })
  else
    (mimeSet h "Content-Disposition"
      ("attachment; filename=\"" ++ encodeHeader (escapeQuotes f.filename) msg.charset 10 false ++ "\""),
     msg)

/-- `AddFileHeaders`: build and emit the part header of file `index`.  The
bounds check `!inline && index >= len(files)` only protects the attachment
kind; an out-of-range inline index reaches `files[index]` and panics. -/
def Message.AddFileHeaders (msg : Message) (index : Nat) (inline : Bool) :
    Outcome (Option GoErr × Message) :=
  let files := if inline then msg.inlines else msg.attachments
  if !inline ∧ index ≥ files.length then
    .ok (some GoErr.indexOutOfRange, msg)
  else
    match files.get? index with
    | none => .panicked
    | some f =>
      let r := msg.fileHeader f inline
      .ok (none, r.2.write r.1 [] .encodingQuotedPrintable)

/-- Store back the mutated file reference at `index` of the selected list. -/
def Message.setFile (msg : Message) (inline : Bool) (index : Nat) (f : file) : Message :=
  if inline then { msg with inlines := msg.inlines.set index f }
  else { msg with attachments := msg.attachments.set index f }

/-- `msg.encoder.Write(p)`: the persistent base64/line-wrap chain encodes the
carry plus `p`, appending the produced characters to `encoderBuff`. -/
def Message.encoderWrite (msg : Message) (p : List Char) : Message :=
  let r := b64WrapWrite ⟨msg.encoderCarry, msg.wrapCol⟩ p
  { msg with
    encoderBuff := msg.encoderBuff ++ r.1
    encoderCarry := r.2.buf
    wrapCol := r.2.col }

/-- `msg.encoder.Close()`: flush the buffered partial group with padding;
a no-op when no bytes are buffered. -/
def Message.encoderClose (msg : Message) : Message :=
  if msg.encoderCarry = [] then msg
  else
    let r := b64WrapClose ⟨msg.encoderCarry, msg.wrapCol⟩
    { msg with
      encoderBuff := msg.encoderBuff ++ r.1
      encoderCarry := []
      wrapCol := r.2.col }

/-- `ReadFile`: stream up to `pLen` output bytes of file `index`.  With
encoding `None` the file bytes are passed through raw; otherwise up to
`(pLen/100)*70` source bytes are pulled, pushed through the persistent
base64 chain (closed at the file's end-of-data), and the output buffer is
drained into the caller's region.  The bounds check again only protects the
attachment kind. -/
def Message.ReadFile (msg : Message) (pLen : Nat) (index : Nat) (inline : Bool) :
    Outcome (List Char × Option GoErr × Message) :=
  let binaryLen := pLen / 100 * 70
  let files := if inline then msg.inlines else msg.attachments
  if !inline ∧ index ≥ files.length then
    .ok ([], some GoErr.indexOutOfRange, msg)
  else
    match files.get? index with
    | none => .panicked
    | some f =>
      if msg.encoding = .encodingNone then
        let r := fileRead f pLen
        .ok (r.1, r.2.1, msg.setFile inline index r.2.2)
      else
        let rb := fileRead f binaryLen
        let nErr := rb.2.1
        if fatalErr nErr then .ok ([], nErr, msg)
        else
          let msg := msg.setFile inline index rb.2.2
          let msg := msg.encoderWrite rb.1
          let msg := if nErr = some GoErr.eof then msg.encoderClose else msg
          if pLen = 0 then .ok ([], none, msg)
          else if msg.encoderBuff = [] then .ok ([], some GoErr.eof, msg)
          else .ok (msg.encoderBuff.take pLen, none,
            { msg with encoderBuff := msg.encoderBuff.drop pLen })

/-- `GetSize`: the size estimate — buffer length, per-file name/type/header
overhead (116 per attachment, 148 per inline), declared sizes with the
`/100*136` adjustment applied to their sum when an encoding is active, and
the boundary correction term when a context is currently open. -/
def Message.GetSize (msg : Message) : Nat :=
  let a := msg.attachments.foldl
    (fun acc f => (acc.1 + f.filename.length * 2 + f.mimeType.length + 116, acc.2 + f.size))
    (msg.body.length, 0)
  let b := msg.inlines.foldl
    (fun acc f => (acc.1 + f.filename.length * 2 + f.mimeType.length + 148, acc.2 + f.size))
    a
  let bodyLength :=
    if msg.parts > 0 then
      b.1 + (((msg.writers.get? 0).getD ⟨"", false⟩).boundary.length + 4) * (msg.parts + 1) * 2
    else b.1
  let fileSize := if msg.encoding ≠ .encodingNone then b.2 / 100 * 136 else b.2
  bodyLength + fileSize

/-- `newMessage`: construction phase — top-level headers (with `Date`
defaulted to the current time), the required multipart contexts, a blank
line, every textual body part, and the close of the alternative context. -/
def newMessage (email : Email) (now : String) : Message :=
  let msg : Message := {
    bodySend := false, fileHeaderSend := false, body := [], writers := [],
    encoderBuff := [], encoderCarry := [], wrapCol := 0,
    attachmentIndex := 0, inlineIndex := 0,
    attachments := email.attachments, inlines := email.inlines,
    parts := 0, cids := [], charset := email.charset,
    encoding := email.encoding, now := now, mpLog := [], boundarySeq := 0 }
  let headers :=
    if mimeGet email.headers "Date" = "" then mimeSet email.headers "Date" now
    else email.headers
  let msg := msg.write headers [] msg.encoding
  let msg := if hasMixedPart email then msg.openMultipart "mixed" else msg
  let msg := if hasRelatedPart email then msg.openMultipart "related" else msg
  let msg := if hasAlternativePart email then msg.openMultipart "alternative" else msg
  let msg := msg.writeBody "\r\n".data .encodingNone
  let msg := email.parts.foldl (fun m p => m.addBody p.contentType p.body) msg
  if hasAlternativePart email then msg.closeMultipart else msg

/-! ## The Read state machine -/

/-- `bytes.Buffer.Read` into a region of capacity `n`: bytes delivered and
the error (`io.EOF` exactly when the buffer is empty and `n > 0`). -/
def bufferRead (b : List Char) (n : Nat) : List Char × Option GoErr :=
  if b = [] then (if n = 0 then ([], none) else ([], some GoErr.eof))
  else (b.take n, none)

/-- Result of one file branch (attachment or inline) of the `Read` loop
body: `brk` leaves the loop, `cont` is Go's `continue`, `fall` falls through
to the rest of the loop body, `pan` propagates a panic. -/
inductive BranchRes
  | brk (out : List Char) (err : Option GoErr) (msg : Message)
  | cont (msg : Message) (offset : Nat) (out : List Char) (err : Option GoErr)
  | fall (msg : Message) (offset : Nat) (out : List Char) (err : Option GoErr)
  | pan

/-- The attachment (`inline = false`) or inline (`inline = true`) branch of
the `Read` loop body: emit the pending file header (its returned error is
discarded by `Read`) and loop, or stream file bytes; on the file's
end-of-data advance the cursor, and close the innermost multipart context
when the list is exhausted. -/
def Message.fileBranch (msg : Message) (lenP offset : Nat) (out : List Char)
    (err : Option GoErr) (inline : Bool) : BranchRes :=
  let files := if inline then msg.inlines else msg.attachments
  let idx := if inline then msg.inlineIndex else msg.attachmentIndex
  if files.length > 0 ∧ files.length > idx then
    if !msg.fileHeaderSend then
      match msg.AddFileHeaders idx inline with
      | .panicked => .pan
      | .ok (_, msg) =>
        .cont { msg with fileHeaderSend := true, bodySend := false } offset out err
    else
      match msg.ReadFile (lenP - offset) idx inline with
      | .panicked => .pan
      | .ok (bytes, ferr, msg) =>
        let offset := offset + bytes.length
        let out := out ++ bytes
        let err := ferr
        if offset = lenP ∨ fatalErr err then .brk out err msg
        else if err = some GoErr.eof then
          let idx := idx + 1
          let msg := if inline then { msg with inlineIndex := idx }
                     else { msg with attachmentIndex := idx }
          if files.length > idx then
            .cont { msg with fileHeaderSend := false } offset out err
          else
            .cont { msg.closeMultipart with bodySend := false } offset out err
        else .fall msg offset out err
  else .fall msg offset out err

/-- Outcome of one iteration of the `Read` loop body. -/
inductive LoopStep
  | done (out : List Char) (err : Option GoErr) (msg : Message)
  | next (msg : Message) (offset : Nat) (out : List Char) (err : Option GoErr)
  | pan

/-- Steps of the `Read` loop body after the buffer drain: mark the buffered
prefix exhausted on `io.EOF`, leave the loop in the terminal state, run the
attachment branch and then (on fall-through) the inline branch, and leave
the loop when the output region is full. -/
def Message.readIterRest (msg : Message) (lenP offset : Nat) (out : List Char)
    (err : Option GoErr) : LoopStep :=
  let msg := if err = some GoErr.eof then { msg with bodySend := true } else msg
  if msg.bodySend = true ∧ msg.attachments.length = msg.attachmentIndex
      ∧ msg.inlines.length = msg.inlineIndex then
    .done out err msg
  else
    let afterFiles :
        LoopStep ⊕ (Message × Nat × List Char × Option GoErr) :=
      if msg.bodySend then
        match msg.fileBranch lenP offset out err false with
        | .pan => Sum.inl LoopStep.pan
        | .brk out err msg => Sum.inl (LoopStep.done out err msg)
        | .cont msg offset out err => Sum.inl (LoopStep.next msg offset out err)
        | .fall msg offset out err =>
          match msg.fileBranch lenP offset out err true with
          | .pan => Sum.inl LoopStep.pan
          | .brk out err msg => Sum.inl (LoopStep.done out err msg)
          | .cont msg offset out err => Sum.inl (LoopStep.next msg offset out err)
          | .fall msg offset out err => Sum.inr (msg, offset, out, err)
      else Sum.inr (msg, offset, out, err)
    match afterFiles with
    | Sum.inl step => step
    | Sum.inr (msg, offset, out, err) =>
      if offset = lenP then .done out err msg else .next msg offset out err

/-- One full iteration of the `Read` loop body: drain the buffered prefix
into the region first (leaving the loop on a fatal error or when this read
alone filled `lenP` bytes), then the remaining steps. -/
def Message.readIter (msg : Message) (lenP offset : Nat) (out : List Char)
    (err : Option GoErr) : LoopStep :=
  if !msg.bodySend then
    let r := bufferRead msg.body (lenP - offset)
    let nBody := r.1.length
    let msg := { msg with body := msg.body.drop nBody }
    let offset := offset + nBody
    let out := out ++ r.1
    let err := r.2
    if fatalErr err ∨ nBody = lenP then .done out err msg
    else msg.readIterRest lenP offset out err
  else
    msg.readIterRest lenP offset out err

/-- The `for {}` loop of `Read`, with an explicit iteration bound (the Go
loop has no syntactic bound; every theorem below either fixes a concrete
bound or holds for all sufficiently large bounds). -/
def Message.readLoop (lenP : Nat) : Nat → Message → Nat → List Char → Option GoErr →
    Outcome (List Char × Option GoErr × Message)
  | 0, msg, _offset, out, err => .ok (out, err, msg)
  | fuel + 1, msg, offset, out, err =>
    match msg.readIter lenP offset out err with
    | .done out err msg => .ok (out, err, msg)
    | .pan => .panicked
    | .next msg offset out err => Message.readLoop lenP fuel msg offset out err

/-- `Read` into a caller region of `lenP` bytes: the zero-length usage check,
then the loop.  Returns the bytes written (`offset` of them), the error of
the named return value, and the mutated message. -/
def Message.Read (msg : Message) (lenP : Nat) (fuel : Nat) :
    Outcome (List Char × Option GoErr × Message) :=
  if lenP = 0 then .ok ([], some GoErr.bufferZero, msg)
  else Message.readLoop lenP fuel msg 0 [] none

/-- C8: for every message state and every loop bound, a `Read` with a
zero-length output region returns the usage error
`buffer should be greater than 0` immediately, writes nothing, and returns
the state unchanged in every component (cursors, flags, buffered prefix,
encoder carry-over, boundary stack). -/
theorem c8_read_zero_length (msg : Message) (fuel : Nat) :
    msg.Read 0 fuel = .ok ([], some GoErr.bufferZero, msg) := by
  unfold Message.Read
  rw [if_pos rfl]

/-- A plain one-part email (no attachments, no inlines, encoding `None`)
used by several concrete scenarios. -/
def plainEmail : Email := {
  headers := [("From", ["f@g"])], charset := "U", encoding := .encodingNone,
  parts := [⟨"text/plain", "body".data⟩], attachments := [], inlines := [] }

/-- The state `Read` leaves `newMessage plainEmail "T"` in on the call that
signals end-of-data. -/
def plainTerminal : Message := {
  bodySend := true, fileHeaderSend := false, body := [], writers := [],
  encoderBuff := [], encoderCarry := [], wrapCol := 0,
  attachmentIndex := 0, inlineIndex := 0, attachments := [], inlines := [],
  parts := 0, cids := [], charset := "U", encoding := .encodingNone,
  now := "T", mpLog := [], boundarySeq := 0 }

set_option maxRecDepth 10000 in
/-- C1 counterexample: the first `Read` on the plain message delivers the
whole stream and signals `io.EOF`, leaving the terminal state (prefix
drained, both cursors at their list lengths); but the next `Read` with a
non-empty region, while writing zero bytes and leaving the state untouched,
returns a `nil` error — it does not signal end-of-data again as the claim
requires. -/
theorem c1_counterexample :
    (newMessage plainEmail "T").Read ((newMessage plainEmail "T").body.length + 1) 5
      = .ok ((newMessage plainEmail "T").body, some GoErr.eof, plainTerminal)
    ∧ plainTerminal.Read 1 5 = .ok ([], none, plainTerminal)
    ∧ (none : Option GoErr) ≠ some GoErr.eof := by
  refine ⟨by decide, by decide, by decide⟩

/-- C1 amended: once the reader is in its terminal state (buffered prefix
drained, both cursors equal to their list lengths, end-of-data already
signalled), every subsequent `Read` call with a non-empty region writes zero
bytes and returns with a `nil` error — not with the end-of-data signal —
leaving the state unchanged; end-of-data is signalled only on the single
call that delivers the last bytes. -/
theorem c1_read_after_terminal (msg : Message) (lenP fuel : Nat)
    (hf : 1 ≤ fuel) (hp : 0 < lenP)
    (hb : msg.bodySend = true) (hbody : msg.body = [])
    (ha : msg.attachments.length = msg.attachmentIndex)
    (hi : msg.inlines.length = msg.inlineIndex) :
    msg.Read lenP fuel = .ok ([], none, msg) := by
  obtain ⟨k, rfl⟩ : ∃ k, fuel = k + 1 := ⟨fuel - 1, by omega⟩
  unfold Message.Read
  rw [if_neg (by omega)]
  show Message.readLoop lenP (k + 1) msg 0 [] none = _
  unfold Message.readLoop
  unfold Message.readIter
  rw [hb]
  simp only [Bool.not_true, Bool.false_eq_true, if_false, Message.readIterRest,
    Option.some.injEq, reduceCtorEq, if_neg (by simp : ¬ (none = some GoErr.eof))]
  rw [if_pos ⟨hb, ha.symm ▸ rfl, hi.symm ▸ rfl⟩]

/-- Witness for the amended C1 at the concrete terminal state. -/
theorem c1_read_after_terminal_witness :
    (1 ≤ 5 ∧ 0 < 3 ∧ plainTerminal.bodySend = true ∧ plainTerminal.body = []
      ∧ plainTerminal.attachments.length = plainTerminal.attachmentIndex
      ∧ plainTerminal.inlines.length = plainTerminal.inlineIndex)
    ∧ plainTerminal.Read 3 5 = .ok ([], none, plainTerminal) :=
  ⟨⟨by decide, by decide, by decide, by decide, by decide, by decide⟩,
    c1_read_after_terminal plainTerminal 3 5 (by decide) (by decide) (by decide)
      (by decide) (by decide) (by decide)⟩

/-- A message whose file lists are both empty, so that every index is out of
range for both kinds. -/
def emptyFilesMsg : Message := {
  bodySend := false, fileHeaderSend := false, body := [], writers := [],
  encoderBuff := [], encoderCarry := [], wrapCol := 0,
  attachmentIndex := 0, inlineIndex := 0, attachments := [], inlines := [],
  parts := 0, cids := [], charset := "U", encoding := .encodingBase64,
  now := "T", mpLog := [], boundarySeq := 0 }

/-- C2: out-of-range behaviour of `AddFileHeaders` and `ReadFile` at the
failing input `index = 0` on empty file lists.  For the attachment kind both
functions return the `index out of range` error as the claim states; for
the inline kind the bounds check is short-circuited by `!inline`, so both
functions index `files[0]` out of range and panic instead of returning an
error — the code contradicts the contract for the inline kind. -/
theorem c2_out_of_range :
    emptyFilesMsg.AddFileHeaders 0 true = .panicked
    ∧ emptyFilesMsg.ReadFile 100 0 true = .panicked
    ∧ emptyFilesMsg.AddFileHeaders 0 false = .ok (some GoErr.indexOutOfRange, emptyFilesMsg)
    ∧ emptyFilesMsg.ReadFile 100 0 false
      = .ok ([], some GoErr.indexOutOfRange, emptyFilesMsg) := by
  refine ⟨by decide, by decide, by decide, by decide⟩

/-! ## Declared vs. actual transfer encoding under `EncodingNone` (C10) -/

theorem mimeGet_set_same (h : MIMEHeader) (k v : String) :
    mimeGet (mimeSet h k v) k = v := by
  induction h with
  | nil => simp [mimeSet, mimeGet]
  | cons kv rest ih =>
    obtain ⟨k', vs⟩ := kv
    by_cases hk : k' = k
    · simp [mimeSet, hk, mimeGet]
    · simp [mimeSet, hk, mimeGet, ih]

theorem mimeGet_set_other (h : MIMEHeader) (k v k' : String) (hne : k' ≠ k) :
    mimeGet (mimeSet h k v) k' = mimeGet h k' := by
  induction h with
  | nil => simp [mimeSet, mimeGet, Ne.symm hne]
  | cons kv rest ih =>
    obtain ⟨k0, vs⟩ := kv
    by_cases hk : k0 = k
    · subst hk
      simp [mimeSet, mimeGet, Ne.symm hne]
    · simp only [mimeSet, if_neg hk, mimeGet]
      by_cases hk' : k0 = k'
      · simp [hk']
      · simp [hk', ih]

theorem encStream_fst_length (l : List Char) :
    (encStream l).1.length = 4 * (l.length / 3) := by
  induction l using encStream.induct with
  | case1 x y z rest ih =>
    simp only [encStream, List.length_append, List.length_cons, ih, encGroup,
      List.length_nil]
    omega
  | case2 rest hr =>
    match rest, hr with
    | [], _ => simp [encStream]
    | [x], _ => simp [encStream]
    | [x, y], _ => simp [encStream]
    | x :: y :: z :: t, hr => exact absurd rfl (hr x y z t)

theorem encStream_snd_mod (l : List Char) :
    (encStream l).2.length = l.length % 3 := by
  induction l using encStream.induct with
  | case1 x y z rest ih =>
    simp only [encStream, List.length_cons, ih]
    omega
  | case2 rest hr =>
    match rest, hr with
    | [], _ => simp [encStream]
    | [x], _ => simp [encStream]
    | [x, y], _ => simp [encStream]
    | x :: y :: z :: t, hr => exact absurd rfl (hr x y z t)

theorem padEncode_length (l : List Char) (h : l.length ≤ 2) :
    (padEncode l).length = if l.length = 0 then 0 else 4 := by
  match l, h with
  | [], _ => simp [padEncode]
  | [x], _ => simp [padEncode]
  | [x, y], _ => simp [padEncode]

/-- The wrapping writer never shortens its input (it only inserts CRLFs). -/
theorem base64LineWrapWrite_length_ge (c : Nat) (p : List Char) :
    p.length ≤ (base64LineWrapWrite c p).1.length := by
  suffices h : ∀ (m c : Nat) (p : List Char), p.length + c ≤ m →
      p.length ≤ (base64LineWrapWrite c p).1.length by
    exact h (p.length + c) c p le_rfl
  intro m
  induction m using Nat.strong_induction_on with
  | _ m ih =>
    intro c p hm
    rw [base64LineWrapWrite_eq]
    by_cases hgt : p.length + c > maxLineChars
    · rw [if_pos hgt]
      have hrec := ih ((p.drop (maxLineChars - c)).length + 0)
        (by simp only [List.length_drop, maxLineChars] at *; omega)
        0 (p.drop (maxLineChars - c)) le_rfl
      simp only [List.length_append, List.length_take, List.length_cons,
        List.length_drop] at *
      omega
    · rw [if_neg hgt]

/-- Base64 encoding strictly lengthens every non-empty input: raw bytes are
never equal to their own encoded form. -/
theorem base64Encode_length_gt (y : List Char) (hy : y ≠ []) :
    y.length < (base64Encode y).length := by
  have h1 := encStream_fst_length y
  have h2 := encStream_snd_mod y
  have h2' : (encStream y).2.length ≤ 2 := encStream_snd_length y
  have hp := padEncode_length (encStream y).2 h2'
  have hw1 := base64LineWrapWrite_length_ge 0 (encStream y).1
  have hw2 := base64LineWrapWrite_length_ge
    (base64LineWrapWrite 0 (encStream y).1).2 (padEncode (encStream y).2)
  have hy' : 1 ≤ y.length := by
    cases y with
    | nil => exact absurd rfl hy
    | cons _ _ => simp
  simp only [base64Encode, List.length_append]
  by_cases hr : y.length % 3 = 0
  · rw [h2, if_pos hr] at hp
    omega
  · rw [h2, if_neg hr] at hp
    omega

/-- C10: with the message's encoding mode `None`, the part header built for
every file (either kind, any index in range) declares
`Content-Transfer-Encoding: base64`, while `ReadFile` streams the same
file's bytes raw into the output region (the leading bytes of the file
source, unencoded, which — being non-empty — can never coincide with their
own base64 encoding): the declared transfer encoding disagrees with the
actual encoding of the body bytes. -/
theorem c10_none_encoding_mismatch (msg : Message) (f : file)
    (pLen index : Nat) (inline : Bool)
    (he : msg.encoding = .encodingNone)
    (hf : (if inline then msg.inlines else msg.attachments).get? index = some f)
    (hd : f.data ≠ []) (hp : 0 < pLen) :
    mimeGet (msg.fileHeader f inline).1 "Content-Transfer-Encoding" = "base64"
    ∧ msg.ReadFile pLen index inline
      = .ok (f.data.take pLen, none,
          msg.setFile inline index { f with data := f.data.drop pLen })
    ∧ f.data.take pLen ≠ base64Encode (f.data.take pLen) := by
  have hlen : index < (if inline then msg.inlines else msg.attachments).length :=
    List.get?_eq_some.mp hf |>.1
  refine ⟨?_, ?_, ?_⟩
  · cases inline
    · simp only [Message.fileHeader]
      rw [if_neg (by decide)]
      dsimp only
      by_cases hsz : f.size > 0
      · rw [if_pos hsz, mimeGet_set_other _ _ _ _ (by decide),
          mimeGet_set_other _ _ _ _ (by decide), mimeGet_set_same]
        rfl
      · rw [if_neg hsz, mimeGet_set_other _ _ _ _ (by decide), mimeGet_set_same]
        rfl
    · simp only [Message.fileHeader]
      rw [if_pos trivial]
      dsimp only
      by_cases hsz : f.size > 0
      · rw [if_pos hsz, mimeGet_set_other _ _ _ _ (by decide),
          mimeGet_set_other _ _ _ _ (by decide),
          mimeGet_set_other _ _ _ _ (by decide), mimeGet_set_same]
        rfl
      · rw [if_neg hsz, mimeGet_set_other _ _ _ _ (by decide),
          mimeGet_set_other _ _ _ _ (by decide), mimeGet_set_same]
        rfl
  · simp only [Message.ReadFile]
    rw [if_neg (by
      intro hand
      exact absurd hlen (by omega))]
    rw [hf]
    simp only [if_pos he, fileRead, if_neg hd]
  · intro heq
    have hne : f.data.take pLen ≠ [] := by
      cases hdata : f.data with
      | nil => exact absurd hdata hd
      | cons a t =>
        cases pLen with
        | zero => omega
        | succ n => simp [hdata]
    have := base64Encode_length_gt (f.data.take pLen) hne
    rw [← heq] at this
    omega

/-- The inline file of the C10 witness. -/
def c10File : file := ⟨"l.png", "image/png", 3, "xyz".data⟩

/-- A `None`-encoded message holding one inline file, for the C10 witness. -/
def c10Msg : Message := {
  bodySend := true, fileHeaderSend := false, body := [], writers := [],
  encoderBuff := [], encoderCarry := [], wrapCol := 0,
  attachmentIndex := 0, inlineIndex := 0, attachments := [], inlines := [c10File],
  parts := 0, cids := [], charset := "U", encoding := .encodingNone,
  now := "T", mpLog := [], boundarySeq := 0 }

/-- Witness for C10 at the concrete inline file. -/
theorem c10_none_encoding_mismatch_witness :
    (c10Msg.encoding = .encodingNone
      ∧ (if true then c10Msg.inlines else c10Msg.attachments).get? 0 = some c10File
      ∧ c10File.data ≠ [] ∧ 0 < 2)
    ∧ (mimeGet (c10Msg.fileHeader c10File true).1 "Content-Transfer-Encoding" = "base64"
      ∧ c10Msg.ReadFile 2 0 true
        = .ok (c10File.data.take 2, none,
            c10Msg.setFile true 0 { c10File with data := c10File.data.drop 2 })
      ∧ c10File.data.take 2 ≠ base64Encode (c10File.data.take 2)) :=
  ⟨⟨by decide, by decide, by decide, by decide⟩,
    c10_none_encoding_mismatch c10Msg c10File 2 0 true (by decide) (by decide)
      (by decide) (by decide)⟩

/-! ## The CID table is write-once per key (C6) -/

/-- An arbitrary further sequence of `getCID` calls (each with its own
formatted time and looked-up name), as triggered by body-text rewriting and
by inline file headers in any interleaving. -/
def runCIDs (cids : CidTable) : List (String × String) → CidTable
  | [] => cids
  | op :: rest => runCIDs (getCID cids op.1 op.2).2 rest

theorem cidLookup_append_left (a b : CidTable) (nm c : String)
    (h : cidLookup a nm = some c) : cidLookup (a ++ b) nm = some c := by
  induction a with
  | nil => simp [cidLookup] at h
  | cons kv rest ih =>
    by_cases hk : kv.1 = nm
    · simpa [cidLookup, hk] using h
    · simp only [cidLookup, hk, if_false, List.cons_append, if_neg hk] at *
      exact ih h

/-- A stored binding survives any further `getCID` call. -/
theorem cidLookup_getCID (cids : CidTable) (now x nm c : String)
    (h : cidLookup cids nm = some c) :
    cidLookup (getCID cids now x).2 nm = some c := by
  unfold getCID
  cases hx : cidLookup cids x with
  | some cid => simpa using h
  | none => exact cidLookup_append_left _ _ _ _ h

/-- A stored binding survives any further sequence of `getCID` calls. -/
theorem cidLookup_runCIDs (cids : CidTable) (ops : List (String × String))
    (nm c : String) (h : cidLookup cids nm = some c) :
    cidLookup (runCIDs cids ops) nm = some c := by
  induction ops generalizing cids with
  | nil => simpa [runCIDs] using h
  | cons op rest ih =>
    exact ih _ (cidLookup_getCID cids op.1 op.2 nm c h)

/-- A `getCID` call on a stored key returns the stored ID and leaves the
table unchanged. -/
theorem getCID_hit (cids : CidTable) (now nm c : String)
    (h : cidLookup cids nm = some c) : getCID cids now nm = (c, cids) := by
  unfold getCID
  rw [h]

set_option maxRecDepth 2000 in
/-- C6: the CID table is write-once per key.  If rewriting a body text
installed the binding `nm ↦ c` (hypothesis `h1`: the table after
`replaceCIDs` stores `c` for `nm`), then after any further sequence of
`getCID` calls — with arbitrary clock values, in particular those performed
while emitting other files' headers, whose number and order do not depend on
the caller's read-buffer size — building the inline file header for a file
named `nm` emits exactly `Content-ID: <c>` and leaves the table unchanged,
and a direct `getCID` again returns `c`. -/
theorem c6_cid_write_once (t0 : CidTable) (now0 : String) (html : List Char)
    (nm c : String) (ops : List (String × String)) (msg : Message) (f : file)
    (h1 : cidLookup (replaceCIDs t0 now0 html).2 nm = some c)
    (h2 : msg.cids = runCIDs (replaceCIDs t0 now0 html).2 ops)
    (hf : f.filename = nm) :
    (getCID msg.cids msg.now nm).1 = c
    ∧ mimeGet (msg.fileHeader f true).1 "Content-ID" = "<" ++ c ++ ">"
    ∧ (msg.fileHeader f true).2.cids = msg.cids := by
  have hstore : cidLookup msg.cids nm = some c := by
    rw [h2]
    exact cidLookup_runCIDs _ _ _ _ h1
  have hhit := getCID_hit msg.cids msg.now nm c hstore
  refine ⟨by rw [hhit], ?_, ?_⟩
  · simp only [Message.fileHeader, hf, hhit]
    rw [if_pos trivial]
    dsimp only
    rw [mimeGet_set_same]
  · simp only [Message.fileHeader, hf, hhit]
    rw [if_pos trivial]

/-- The HTML body of the C6 witness. -/
def c6Html : List Char := "<img src=\"cid:logo.png\">".data

/-- A message whose table arose from rewriting `c6Html` and then one further
`getCID` call, for the C6 witness. -/
def c6Msg : Message := {
  bodySend := true, fileHeaderSend := false, body := [], writers := [],
  encoderBuff := [], encoderCarry := [], wrapCol := 0,
  attachmentIndex := 0, inlineIndex := 0, attachments := [],
  inlines := [⟨"logo.png", "image/png", 3, "xyz".data⟩],
  parts := 0, cids := runCIDs (replaceCIDs [] "T" c6Html).2 [("U", "other.png")],
  charset := "U", encoding := .encodingBase64,
  now := "V", mpLog := [], boundarySeq := 0 }

set_option maxRecDepth 4000 in
/-- Witness for C6: the ID generated for `logo.png` while rewriting the HTML
body is the one later emitted in the inline file's `Content-ID` header. -/
theorem c6_cid_write_once_witness :
    (cidLookup (replaceCIDs [] "T" c6Html).2 "logo.png" = some "T.1@mail.0"
      ∧ c6Msg.cids = runCIDs (replaceCIDs [] "T" c6Html).2 [("U", "other.png")]
      ∧ (⟨"logo.png", "image/png", 3, "xyz".data⟩ : file).filename = "logo.png")
    ∧ ((getCID c6Msg.cids c6Msg.now "logo.png").1 = "T.1@mail.0"
      ∧ mimeGet (c6Msg.fileHeader ⟨"logo.png", "image/png", 3, "xyz".data⟩ true).1
          "Content-ID" = "<" ++ "T.1@mail.0" ++ ">"
      ∧ (c6Msg.fileHeader ⟨"logo.png", "image/png", 3, "xyz".data⟩ true).2.cids
          = c6Msg.cids) :=
  ⟨⟨by decide, rfl, rfl⟩,
    c6_cid_write_once [] "T" c6Html "logo.png" "T.1@mail.0" [("U", "other.png")]
      c6Msg ⟨"logo.png", "image/png", 3, "xyz".data⟩ (by decide) rfl rfl⟩

/-! ## The size estimate (C9) -/

/-- The accumulating loops of `GetSize` compute header-overhead and size
sums. -/
theorem getSize_foldl_eq (l : List file) (k init1 init2 : Nat) :
    l.foldl
      (fun acc f => (acc.1 + f.filename.length * 2 + f.mimeType.length + k, acc.2 + f.size))
      (init1, init2)
      = (init1 + (l.map fun f => f.filename.length * 2 + f.mimeType.length + k).sum,
         init2 + (l.map file.size).sum) := by
  induction l generalizing init1 init2 with
  | nil => simp
  | cons f rest ih =>
    simp only [List.foldl_cons, List.map_cons, List.sum_cons, ih, Prod.mk.injEq]
    constructor <;> omega

/-- C9 amended: `GetSize` equals the buffer length, plus for each attachment
an overhead of `2·|filename| + |mimeType| + 116` and for each inline of
`2·|filename| + |mimeType| + 148` (filename- and type-dependent, with
distinct constants per kind), plus a boundary correction term exactly when a
context is *currently open*, plus the sum of the declared sizes, adjusted as
a whole by `/100·136` in truncating integer arithmetic exactly when the
encoding mode is not `None`. -/
theorem c9_getSize_closed_form (msg : Message) :
    msg.GetSize = msg.body.length
      + (msg.attachments.map fun f => f.filename.length * 2 + f.mimeType.length + 116).sum
      + (msg.inlines.map fun f => f.filename.length * 2 + f.mimeType.length + 148).sum
      + (if 0 < msg.parts then
          (((msg.writers.get? 0).getD ⟨"", false⟩).boundary.length + 4) * (msg.parts + 1) * 2
         else 0)
      + (if msg.encoding ≠ .encodingNone then
          ((msg.attachments.map file.size).sum + (msg.inlines.map file.size).sum) / 100 * 136
         else (msg.attachments.map file.size).sum + (msg.inlines.map file.size).sum) := by
  unfold Message.GetSize
  simp only [getSize_foldl_eq]
  by_cases hp : 0 < msg.parts
  · rw [if_pos hp, if_pos hp]
    by_cases he : msg.encoding ≠ .encodingNone
    · rw [if_pos he, if_pos he]
      omega
    · rw [if_neg he, if_neg he]
      omega
  · rw [if_neg hp, if_neg hp]
    by_cases he : msg.encoding ≠ .encodingNone
    · rw [if_pos he, if_pos he]
      omega
    · rw [if_neg he, if_neg he]
      omega

/-- A message with one attachment named `a` (size 0). -/
def c9MsgA : Message := {
  bodySend := false, fileHeaderSend := false, body := [], writers := [],
  encoderBuff := [], encoderCarry := [], wrapCol := 0,
  attachmentIndex := 0, inlineIndex := 0, attachments := [⟨"a", "", 0, []⟩],
  inlines := [], parts := 0, cids := [], charset := "U",
  encoding := .encodingBase64, now := "T", mpLog := [], boundarySeq := 0 }

/-- The same message with the attachment renamed to `ab`. -/
def c9MsgB : Message := { c9MsgA with attachments := [⟨"ab", "", 0, []⟩] }

/-- The same message with one attachment of declared size 12. -/
def c9MsgC : Message := { c9MsgA with attachments := [⟨"", "", 12, []⟩] }

/-- C9 counterexample.  `c9MsgA` and `c9MsgB` agree on the buffer, the file
counts, the declared sizes, the boundary state and the encoding, differing
only in the attachment's filename length, yet `GetSize` differs — so the
per-file header overhead is not a constant per kind.  And `c9MsgC`, with one
attachment of declared size 12 under active encoding, yields 116: the
declared size's contribution is `12/100*136 = 0` — the sum of sizes is
divided by 100 before multiplying — not the per-file `136/100` adjustment
(`12·136/100 = 16`) the claim describes. -/
theorem c9_counterexample :
    c9MsgA.GetSize = 118 ∧ c9MsgB.GetSize = 120
    ∧ c9MsgA.GetSize ≠ c9MsgB.GetSize
    ∧ c9MsgC.GetSize = 116
    ∧ c9MsgC.GetSize ≠ c9MsgC.body.length + (0 + 0 + 116) + 12 * 136 / 100 := by
  refine ⟨by decide, by decide, by decide, by decide, by decide⟩

/-! ## The single-plain-part stream (C4) -/

/-- The top-level header map after `newMessage`'s `Date` defaulting. -/
def dateDefaulted (hdrs : MIMEHeader) (now : String) : MIMEHeader :=
  if mimeGet hdrs "Date" = "" then mimeSet hdrs "Date" now else hdrs

/-- The part header `addBody` builds for a body part. -/
def bodyPartHeader (ct cs : String) (enc : Encoding) : MIMEHeader :=
  mimeSet (mimeSet [] "Content-Type" (ct ++ "; charset=" ++ cs))
    "Content-Transfer-Encoding" (encodingString enc)

/-- Construction of a message from an email with exactly one body part, no
attachments, no inlines and encoding mode `None`: no multipart context is
opened, and the buffer holds the serialized top-level headers, a CRLF, the
body part's header block, and the raw body bytes. -/
theorem newMessage_plain (hdrs : MIMEHeader) (ct cs now : String)
    (body : List Char) (hm : findCIDMatches body = []) :
    newMessage ⟨hdrs, cs, .encodingNone, [⟨ct, body⟩], [], []⟩ now
      = { bodySend := false, fileHeaderSend := false,
          body := getHeaders (dateDefaulted hdrs now) cs false ++ "\r\n".data
            ++ getHeaders (bodyPartHeader ct cs .encodingNone) cs false ++ body,
          writers := [], encoderBuff := [], encoderCarry := [], wrapCol := 0,
          attachmentIndex := 0, inlineIndex := 0, attachments := [], inlines := [],
          parts := 0, cids := [], charset := cs, encoding := .encodingNone,
          now := now, mpLog := [], boundarySeq := 0 } := by
  have hMix : hasMixedPart ⟨hdrs, cs, .encodingNone, [⟨ct, body⟩], [], []⟩ = false := rfl
  have hRel : hasRelatedPart ⟨hdrs, cs, .encodingNone, [⟨ct, body⟩], [], []⟩ = false := rfl
  have hAlt : hasAlternativePart ⟨hdrs, cs, .encodingNone, [⟨ct, body⟩], [], []⟩ = false := rfl
  unfold newMessage
  simp only [hMix, hRel, hAlt, Bool.false_eq_true, if_false,
    List.foldl_cons, List.foldl_nil]
  simp only [Message.addBody, replaceCIDs_no_match _ _ _ hm]
  simp only [Message.write, Message.writeBody, dateDefaulted, bodyPartHeader]
  by_cases hb : body.length ≠ 0
  · simp only [if_pos hb]
    simp [Message.writeBody, List.append_assoc]
  · simp only [if_neg hb]
    simp only [ne_eq, Decidable.not_not, List.length_eq_zero] at hb
    subst hb
    simp [Message.writeBody, List.append_assoc]

/-- Draining read: on a message whose buffered prefix is the only content
(no attachments, no inlines, cursors at zero, prefix not yet drained and
non-empty), a single `Read` with a region one byte longer than the prefix
delivers the whole prefix and signals `io.EOF`, leaving the terminal
state. -/
theorem read_drains_buffer (msg : Message) (fuel : Nat) (hf : 2 ≤ fuel)
    (hb : msg.bodySend = false) (hne : msg.body ≠ [])
    (ha : msg.attachments = []) (hai : msg.attachmentIndex = 0)
    (hi : msg.inlines = []) (hii : msg.inlineIndex = 0) :
    msg.Read (msg.body.length + 1) fuel
      = .ok (msg.body, some GoErr.eof, { msg with body := [], bodySend := true }) := by
  obtain ⟨k, rfl⟩ : ∃ k, fuel = k + 2 := ⟨fuel - 2, by omega⟩
  obtain ⟨bS, fHS, body, wr, eB, eC, wC, aI, iI, atts, inls, prts, cds, cs, enc, nw, lg, bsq⟩ := msg
  dsimp only at hb hne ha hai hi hii
  subst hb ha hai hi hii
  unfold Message.Read
  rw [if_neg (by omega)]
  show Message.readLoop _ (k + 2) _ 0 [] none = _
  unfold Message.readLoop
  unfold Message.readIter
  simp only [Bool.not_false, if_true, bufferRead, if_neg hne, Nat.sub_zero,
    List.take_of_length_le (Nat.le_succ _), Nat.zero_add, List.drop_length,
    List.nil_append]
  rw [if_neg (by
    simp only [fatalErr]
    refine not_or.mpr ⟨by simp, by omega⟩)]
  simp only [Message.readIterRest]
  rw [if_neg (by simp : ¬ ((none : Option GoErr) = some GoErr.eof))]
  rw [if_neg (by
    intro hc
    exact absurd hc.1 (by simp))]
  simp only [Bool.false_eq_true, if_false]
  rw [if_neg (by omega)]
  show Message.readLoop _ (k + 1) _ _ _ _ = _
  unfold Message.readLoop
  unfold Message.readIter
  simp only [Bool.not_false, if_true, bufferRead, if_pos rfl,
    if_neg (by omega : ¬ (body.length + 1 - body.length = 0)), List.length_nil,
    Nat.add_zero, List.drop_nil, List.append_nil]
  rw [if_neg (by
    simp only [fatalErr]
    refine not_or.mpr ⟨by simp, by omega⟩)]
  simp [Message.readIterRest]

/-- C4 amended: for a message built from an email with exactly one plain
body part, no attachments, no inlines and encoding mode `None`, the complete
byte stream produced by reading to exhaustion is the folded top-level
headers, one CRLF, then the body part's own header block (`Content-Type`
and `Content-Transfer-Encoding` lines, serialized in the model's fixed
order), and then the literal body bytes — with no multipart boundaries (no
writer is ever created) and no other bytes.  The read also signals
end-of-data on this call and leaves the terminal state. -/
theorem c4_single_part_stream (hdrs : MIMEHeader) (ct cs now : String)
    (body : List Char) (hm : findCIDMatches body = []) (fuel : Nat) (hf : 2 ≤ fuel) :
    (newMessage ⟨hdrs, cs, .encodingNone, [⟨ct, body⟩], [], []⟩ now).body
      = getHeaders (dateDefaulted hdrs now) cs false ++ "\r\n".data
        ++ getHeaders (bodyPartHeader ct cs .encodingNone) cs false ++ body
    ∧ (newMessage ⟨hdrs, cs, .encodingNone, [⟨ct, body⟩], [], []⟩ now).writers = []
    ∧ (newMessage ⟨hdrs, cs, .encodingNone, [⟨ct, body⟩], [], []⟩ now).parts = 0
    ∧ (newMessage ⟨hdrs, cs, .encodingNone, [⟨ct, body⟩], [], []⟩ now).Read
        ((newMessage ⟨hdrs, cs, .encodingNone, [⟨ct, body⟩], [], []⟩ now).body.length + 1) fuel
      = .ok ((newMessage ⟨hdrs, cs, .encodingNone, [⟨ct, body⟩], [], []⟩ now).body,
          some GoErr.eof,
          { newMessage ⟨hdrs, cs, .encodingNone, [⟨ct, body⟩], [], []⟩ now with
              body := [], bodySend := true }) := by
  have hmain := newMessage_plain hdrs ct cs now body hm
  rw [hmain]
  have hne : getHeaders (dateDefaulted hdrs now) cs false ++ "\r\n".data
      ++ getHeaders (bodyPartHeader ct cs .encodingNone) cs false ++ body ≠ [] := by
    intro h0
    have hlen := congrArg List.length h0
    have h2 : ("\r\n".data).length = 2 := rfl
    simp only [List.length_append, List.length_nil, h2] at hlen
    omega
  exact ⟨rfl, rfl, rfl, read_drains_buffer _ fuel hf rfl hne rfl rfl rfl rfl⟩

/-- Witness for the amended C4 at the concrete plain email. -/
theorem c4_single_part_stream_witness :
    findCIDMatches ("body".data) = [] ∧ 2 ≤ 2
    ∧ ((newMessage ⟨[("From", ["f@g"])], "U", .encodingNone,
          [⟨"text/plain", "body".data⟩], [], []⟩ "T").body
        = getHeaders (dateDefaulted [("From", ["f@g"])] "T") "U" false ++ "\r\n".data
          ++ getHeaders (bodyPartHeader "text/plain" "U" .encodingNone) "U" false
          ++ "body".data
      ∧ (newMessage ⟨[("From", ["f@g"])], "U", .encodingNone,
          [⟨"text/plain", "body".data⟩], [], []⟩ "T").writers = []
      ∧ (newMessage ⟨[("From", ["f@g"])], "U", .encodingNone,
          [⟨"text/plain", "body".data⟩], [], []⟩ "T").parts = 0
      ∧ (newMessage ⟨[("From", ["f@g"])], "U", .encodingNone,
          [⟨"text/plain", "body".data⟩], [], []⟩ "T").Read
          ((newMessage ⟨[("From", ["f@g"])], "U", .encodingNone,
            [⟨"text/plain", "body".data⟩], [], []⟩ "T").body.length + 1) 2
        = .ok ((newMessage ⟨[("From", ["f@g"])], "U", .encodingNone,
            [⟨"text/plain", "body".data⟩], [], []⟩ "T").body, some GoErr.eof,
            { newMessage ⟨[("From", ["f@g"])], "U", .encodingNone,
                [⟨"text/plain", "body".data⟩], [], []⟩ "T" with
                body := [], bodySend := true })) :=
  ⟨by decide, by decide,
    c4_single_part_stream [("From", ["f@g"])] "text/plain" "U" "T" "body".data
      (by decide) 2 (by decide)⟩

/-- The stream scenario 1 of the claim describes: folded top-level headers,
one CRLF, then the literal body bytes, and nothing else. -/
def c4ClaimedStream : List Char :=
  getHeaders [("From", ["f@g"]), ("Date", ["T"])] "U" false ++ "\r\n".data ++ "body".data

set_option maxRecDepth 10000 in
/-- C4 counterexample: reading the plain message to exhaustion delivers the
message buffer, and that buffer is not `headers ++ CRLF ++ body`: between
the blank line and the body bytes the code also emits the body part's own
`Content-Type` and `Content-Transfer-Encoding` header lines (serialized into
the buffer because no multipart context is open). -/
theorem c4_counterexample :
    (newMessage plainEmail "T").Read ((newMessage plainEmail "T").body.length + 1) 4
      = .ok ((newMessage plainEmail "T").body, some GoErr.eof, plainTerminal)
    ∧ (newMessage plainEmail "T").body ≠ c4ClaimedStream := by
  refine ⟨by decide, by decide⟩
